import Mathlib

set_option exponentiation.threshold 5000

/-!
# gtime: duration wrappers over Go's `time.Duration`

A shallow embedding of `duration.go`.  The program computes with `float64`
and `int64`, so the embedding carries an exact model of IEEE-754 binary64
arithmetic (round to nearest, ties to even) over natural numbers:

* a finite `float64` is a sign and a magnitude counted in units of `2^-1074`,
  the spacing of the smallest subnormals, so that every finite value is a
  natural number of units;
* every arithmetic operation computes the exact rational result and rounds it
  once, as the hardware does;
* `int64` values are integers, with wrap-around modulo `2^64` where the
  program multiplies.

The methods of Go's `time.Duration` that the program calls (`Hours`,
`Minutes`, `Seconds`, `Nanoseconds`, `String`) are embedded in namespace
`time`.
-/

namespace Gtime

/-! ## IEEE-754 binary64 -/

/-- Quotient of `n` by `d` rounded to the nearest natural number, ties going
to the even neighbour. -/
def rne (n d : Nat) : Nat :=
  if 2 * (n % d) < d then n / d
  else if d < 2 * (n % d) then n / d + 1
  else if (n / d) % 2 = 0 then n / d
  else n / d + 1

/-- Binary search for the position of the highest set bit of `n`, looking at
`2^i` bit positions. -/
def log2Aux : Nat → Nat → Nat
  | 0, _ => 0
  | i + 1, n =>
    if 2 ^ 2 ^ i ≤ n then 2 ^ i + log2Aux i (n / 2 ^ 2 ^ i) else log2Aux i n

/-- Floor of the binary logarithm, for `n < 2^4096` (and `0` at `0`). -/
def ilog2 (n : Nat) : Nat := log2Aux 12 n

/-- Binary exponent of the unit in the last place of the positive rational
`n / d`, counted in units of `2^-1074`: `0` throughout the subnormal range and
the first normal binade, `e - 52` for a value in `[2^e, 2^(e+1))`. -/
def ulpExp (n d : Nat) : Nat := ilog2 (n / d) - 52

/-- Magnitude of the binary64 nearest to `n / d` (units of `2^-1074`): the
quotient is rounded to 53 significant bits, ties to even. -/
def roundNat (n d : Nat) : Nat := rne n (d * 2 ^ ulpExp n d) * 2 ^ ulpExp n d

/-- First magnitude beyond the finite range: `2^1024` in units of `2^-1074`. -/
def overflowBound : Nat := 2 ^ 2098

/-- Values of type `float64`.  `fin neg k` is `(-1)^neg * k * 2^-1074`; both
zeros are present (`fin false 0`, `fin true 0`). -/
inductive F64 where
  | fin (neg : Bool) (k : Nat)
  | inf (neg : Bool)
  | nan
  deriving DecidableEq, Repr

namespace F64

/-- Round the rational `(-1)^neg * n / d` (units of `2^-1074`) to binary64;
a rounded magnitude of `2^1024` or more overflows to an infinity. -/
def round (neg : Bool) (n d : Nat) : F64 :=
  if roundNat n d < overflowBound then fin neg (roundNat n d) else inf neg

/-- The finite magnitudes that are binary64 values: those that rounding leaves
alone. -/
def IsRep (k : Nat) : Prop := k < overflowBound ∧ roundNat k 1 = k

instance (k : Nat) : Decidable (IsRep k) := by unfold IsRep; exact inferInstance

/-- Well-formed `float64` values: a finite value has at most 53 significant
bits and lies in the finite range. -/
def WF : F64 → Prop
  | fin _ k => IsRep k
  | _ => True

instance (x : F64) : Decidable (WF x) := by
  cases x <;> unfold WF <;> exact inferInstance

/-- Finite values (neither infinite nor NaN). -/
def isFinite : F64 → Bool
  | fin _ _ => true
  | _ => false

/-- Exact rational value of a finite `float64` (`0` on the others). -/
def toRat : F64 → ℚ
  | fin neg k => (if neg then -(k : ℚ) else (k : ℚ)) / 2 ^ 1074
  | _ => 0

/-- Sign factor of a sign bit: `-1` when set, `1` otherwise. -/
def sg (a : Bool) : ℚ := if a then -1 else 1

/-- Half a unit of the subnormal spacing, `2^-1075`: the largest rounding error
in the subnormal range. -/
@[irreducible] def halfUnit : ℚ := 1 / 2 ^ 1075

/-- Magnitudes below `2^1023` are well inside the finite range. -/
@[irreducible] def hugeBound : ℚ := 2 ^ 1023

/-- Signed magnitude of a finite value, in units of `2^-1074`. -/
def signed (neg : Bool) (k : Nat) : Int := if neg then -(k : Int) else (k : Int)

/-- Conversion `float64(i)` of an integer: the nearest binary64. -/
def ofInt (i : Int) : F64 := round (decide (i < 0)) (i.natAbs * 2 ^ 1074) 1

/-- Conversion of a decimal constant `m * 10^-e` (`m`, `e` naturals) to
`float64`: the nearest binary64, as the Go compiler converts an untyped
constant. -/
def ofDecimal (m e : Nat) : F64 := round false (m * 2 ^ 1074) (10 ^ e)

/-- Go's `x / y` on `float64`. -/
def div : F64 → F64 → F64
  | nan, _ => nan
  | _, nan => nan
  | inf _, inf _ => nan
  | inf a, fin b _ => inf (xor a b)
  | fin a _, inf b => fin (xor a b) 0
  | fin a x, fin b y =>
    if y = 0 then (if x = 0 then nan else inf (xor a b))
    else round (xor a b) (x * 2 ^ 1074) y

/-- Go's `x * y` on `float64`. -/
def mul : F64 → F64 → F64
  | nan, _ => nan
  | _, nan => nan
  | inf a, inf b => inf (xor a b)
  | inf a, fin b y => if y = 0 then nan else inf (xor a b)
  | fin a x, inf b => if x = 0 then nan else inf (xor a b)
  | fin a x, fin b y => round (xor a b) (x * y) (2 ^ 1074)

/-- Go's `x + y` on `float64`.  An exact zero sum is `+0` unless both operands
are `-0`. -/
def add : F64 → F64 → F64
  | nan, _ => nan
  | _, nan => nan
  | inf a, inf b => if a = b then inf a else nan
  | inf a, fin _ _ => inf a
  | fin _ _, inf b => inf b
  | fin a x, fin b y =>
    if signed a x + signed b y = 0 then fin (a && b) 0
    else round (decide (signed a x + signed b y < 0))
      (signed a x + signed b y).natAbs 1

/-- Go's `x == y` on `float64`: NaN equals nothing, the two zeros are equal. -/
def eq : F64 → F64 → Bool
  | fin a x, fin b y => (x == 0 && y == 0) || (a == b && x == y)
  | inf a, inf b => a == b
  | _, _ => false

/-- Conversion `int64(x)` (equally `time.Duration(x)`) of a `float64`: the
fraction is discarded (truncation towards zero).  When the truncated value is
not an `int64`, or `x` is infinite or NaN, the Go specification leaves the
result to the implementation: the model returns `none`. -/
def toInt64 : F64 → Option Int
  | fin neg k =>
    if -(2 ^ 63 : Int) ≤ signed neg (k / 2 ^ 1074) ∧ signed neg (k / 2 ^ 1074) < 2 ^ 63
    then some (signed neg (k / 2 ^ 1074)) else none
  | _ => none

end F64

/-! ## `int64` -/

/-- The two's-complement `int64` congruent to `z` modulo `2^64`. -/
def wrap64 (z : Int) : Int := (z + 2 ^ 63) % 2 ^ 64 - 2 ^ 63

/-- Range of `int64`. -/
def IsInt64 (z : Int) : Prop := -(2 ^ 63 : Int) ≤ z ∧ z < 2 ^ 63

instance (z : Int) : Decidable (IsInt64 z) := by unfold IsInt64; exact inferInstance

/-- The rational `q` with its fraction discarded: truncation towards zero,
the rounding of Go's float-to-integer conversion. -/
def truncQ (q : ℚ) : Int := if 0 ≤ q then ⌊q⌋ else ⌈q⌉

/-! ## Go's `time` package -/

namespace time

/-- Modelled from the spec: `time.Nanosecond` of Go's standard library, the unit
of the canonical duration (one nanosecond). -/
def Nanosecond : Int := 1

/-- Modelled from the spec: `time.Microsecond` of Go's standard library. -/
def Microsecond : Int := 1000 * Nanosecond

/-- Modelled from the spec: `time.Millisecond` of Go's standard library. -/
def Millisecond : Int := 1000 * Microsecond

/-- Modelled from the spec: `time.Second` of Go's standard library, `1e9`
nanoseconds. -/
def Second : Int := 1000 * Millisecond

/-- Modelled from the spec: `time.Minute` of Go's standard library, `6e10`
nanoseconds. -/
def Minute : Int := 60 * Second

/-- Modelled from the spec: `time.Hour` of Go's standard library, `3.6e12`
nanoseconds. -/
def Hour : Int := 60 * Minute

namespace Duration

/-- Modelled from the spec: `Duration.Nanoseconds` of Go's standard library,
the count itself. -/
def Nanoseconds (d : Int) : Int := d

/-- Modelled from the spec: `Duration.Seconds` of Go's standard library, the
platform's division of the nanosecond count by `1e9`.  Go converts the whole
seconds and the remainder apart: `float64(sec) + float64(nsec)/1e9` with
`sec := d / Second`, `nsec := d % Second` (Go's integer division truncates
towards zero and the remainder has the sign of `d`). -/
def Seconds (d : Int) : F64 :=
  F64.add (F64.ofInt (d.tdiv Second))
    (F64.div (F64.ofInt (d.tmod Second)) (F64.ofInt 1000000000))

/-- Modelled from the spec: `Duration.Minutes` of Go's standard library,
`float64(min) + float64(nsec)/(60*1e9)`. -/
def Minutes (d : Int) : F64 :=
  F64.add (F64.ofInt (d.tdiv Minute))
    (F64.div (F64.ofInt (d.tmod Minute)) (F64.ofInt 60000000000))

/-- Modelled from the spec: `Duration.Hours` of Go's standard library,
`float64(hour) + float64(nsec)/(60*60*1e9)`. -/
def Hours (d : Int) : F64 :=
  F64.add (F64.ofInt (d.tdiv Hour))
    (F64.div (F64.ofInt (d.tmod Hour)) (F64.ofInt 3600000000000))

/-- Modelled from the spec: the loop of `fmtFrac`, a helper of
`Duration.String` in Go's standard library.  `prec` times, emit the last
decimal digit of `v` in front of the buffer unless only zeros have been seen
so far, and drop it from `v`. -/
def fmtFracLoop : Nat → Nat → Bool → List Char → List Char × Nat × Bool
  | 0, v, print, buf => (buf, v, print)
  | i + 1, v, print, buf =>
    fmtFracLoop i (v / 10) (print || v % 10 != 0)
      (if print || v % 10 != 0 then Char.ofNat (v % 10 + 48) :: buf else buf)

/-- Modelled from the spec: `fmtFrac` of Go's standard library, which
suppresses trailing zero fractional digits.  It writes the fraction of
`v / 10^prec` in front of `buf` without trailing zeros, and without the
decimal point when the fraction is zero; returns the buffer and
`v / 10^prec`. -/
def fmtFrac (buf : List Char) (v prec : Nat) : List Char × Nat :=
  ((if (fmtFracLoop prec v false buf).2.2 then
      '.' :: (fmtFracLoop prec v false buf).1
    else (fmtFracLoop prec v false buf).1),
   (fmtFracLoop prec v false buf).2.1)

/-- Modelled from the spec: the loop of `fmtInt`, a helper of
`Duration.String` in Go's standard library.  While `v > 0`, emit the last
decimal digit in front of the buffer.  A `uint64` has at most 20 digits. -/
def fmtIntLoop : Nat → Nat → List Char → List Char
  | 0, _, buf => buf
  | fuel + 1, v, buf =>
    if v = 0 then buf else fmtIntLoop fuel (v / 10) (Char.ofNat (v % 10 + 48) :: buf)

/-- Modelled from the spec: `fmtInt` of Go's standard library, which writes `v`
in decimal in front of `buf`. -/
def fmtInt (buf : List Char) (v : Nat) : List Char :=
  if v = 0 then '0' :: buf else fmtIntLoop 20 v buf

/-- Modelled from the spec: the body of `Duration.String` of Go's standard
library for the magnitude `u` (nanoseconds), without the sign.  Below one
second the unit is ns, µs or ms; from one second on the seconds carry the
fraction and minutes and hours are written when non-zero.  The zero duration
formats as `0`, with no unit, as the spec and the doc comments on the `String`
methods of `duration.go` say. -/
def formatAbs (u : Nat) : List Char :=
  if u < 1000000000 then
    if u = 0 then ['0']
    else if u < 1000 then
      fmtInt (fmtFrac ['n', 's'] u 0).1 (fmtFrac ['n', 's'] u 0).2
    else if u < 1000000 then
      fmtInt (fmtFrac ['µ', 's'] u 3).1 (fmtFrac ['µ', 's'] u 3).2
    else
      fmtInt (fmtFrac ['m', 's'] u 6).1 (fmtFrac ['m', 's'] u 6).2
  else
    let secs := (fmtFrac ['s'] u 9).2
    let b := fmtInt (fmtFrac ['s'] u 9).1 (secs % 60)
    if 0 < secs / 60 then
      let b := fmtInt ('m' :: b) (secs / 60 % 60)
      if 0 < secs / 60 / 60 then fmtInt ('h' :: b) (secs / 60 / 60) else b
    else b

/-- Modelled from the spec: `Duration.String` of Go's standard library, the
rendering `toString()` of the canonical duration: a minus sign for a negative
duration, then the magnitude. -/
def String (d : Int) : String :=
  (if d < 0 then '-' :: formatAbs d.natAbs else formatAbs d.natAbs).asString

end Duration

end time

/-! ## `duration.go` -/

/-- The constant `nano = 1e-09`, as the `float64` it becomes in an expression
with a `float64` operand. -/
def nano : F64 := F64.ofDecimal 1 9

/-- `FloatTime`: one nanosecond. -/
def FloatTime : Int := wrap64 (1 * time.Nanosecond)

/-- Modelled from the spec: `math.Pow(60, 2)` of Go's standard library, the
power of 60 of the spec's design notes: exactly `3600`. -/
def pow60 : F64 := F64.ofInt 3600

/-- The constant `60` as a `float64`. -/
def sixty : F64 := F64.ofInt 60

namespace Second

/-- `Second.Duration`: `time.Duration(n) * time.Hour` with `n := float64(s)`. -/
def Duration (s : F64) : Option Int :=
  (F64.toInt64 s).map fun t => wrap64 (t * time.Hour)

/-- `Second.Hours`. -/
def Hours (s : F64) : Option F64 :=
  (F64.toInt64 (F64.div s nano)).map time.Duration.Hours

/-- `Second.Minutes`. -/
def Minutes (s : F64) : Option F64 :=
  (F64.toInt64 (F64.div s nano)).map time.Duration.Minutes

/-- `Second.Nanoseconds`. -/
def Nanoseconds (s : F64) : Option Int :=
  (F64.toInt64 (F64.div s nano)).map time.Duration.Nanoseconds

/-- `Second.Seconds`: the stored number. -/
def Seconds (s : F64) : F64 := s

/-- `Second.String`. -/
def String (s : F64) : Option String :=
  (F64.toInt64 (F64.div s nano)).map time.Duration.String

end Second

namespace Hour

/-- `Hour.Duration`: `time.Duration(n) * time.Hour` with `n := float64(h)`. -/
def Duration (h : F64) : Option Int :=
  (F64.toInt64 h).map fun t => wrap64 (t * time.Hour)

/-- `Hour.Hours`: the stored number. -/
def Hours (h : F64) : F64 := h

/-- `Hour.Minutes`. -/
def Minutes (h : F64) : Option F64 :=
  (F64.toInt64 (F64.mul (F64.div h nano) pow60)).map time.Duration.Minutes

/-- `Hour.Nanoseconds`. -/
def Nanoseconds (h : F64) : Option Int :=
  (F64.toInt64 (F64.mul (F64.div h nano) pow60)).map time.Duration.Nanoseconds

/-- `Hour.Seconds`. -/
def Seconds (h : F64) : Option F64 :=
  (F64.toInt64 (F64.mul (F64.div h nano) pow60)).map time.Duration.Seconds

/-- `Hour.String`. -/
def String (h : F64) : Option String :=
  (F64.toInt64 (F64.mul (F64.div h nano) pow60)).map time.Duration.String

end Hour

namespace Minute

/-- `Minute.Duration`: `time.Duration(n) * time.Minute` with `n := float64(m)`. -/
def Duration (m : F64) : Option Int :=
  (F64.toInt64 m).map fun t => wrap64 (t * time.Minute)

/-- `Minute.Hours`. -/
def Hours (m : F64) : Option F64 :=
  (F64.toInt64 (F64.mul (F64.div m nano) sixty)).map time.Duration.Hours

/-- `Minute.Minutes`: the stored number. -/
def Minutes (m : F64) : F64 := m

/-- `Minute.Nanoseconds`. -/
def Nanoseconds (m : F64) : Option Int :=
  (F64.toInt64 (F64.mul (F64.div m nano) sixty)).map time.Duration.Nanoseconds

/-- `Minute.Seconds`. -/
def Seconds (m : F64) : Option F64 :=
  (F64.toInt64 (F64.mul (F64.div m nano) sixty)).map time.Duration.Seconds

/-- `Minute.String`. -/
def String (m : F64) : Option String :=
  (F64.toInt64 (F64.mul (F64.div m nano) sixty)).map time.Duration.String

end Minute

namespace Nanosecond

/-- `Nanosecond.Duration`: `time.Duration(n) * time.Nanosecond`. -/
def Duration (ns : Int) : Int := wrap64 (ns * time.Nanosecond)

/-- `Nanosecond.Hours`. -/
def Hours (ns : Int) : F64 := time.Duration.Hours ns

/-- `Nanosecond.Minutes`. -/
def Minutes (ns : Int) : F64 := time.Duration.Minutes ns

/-- `Nanosecond.Nanoseconds`: the stored number. -/
def Nanoseconds (ns : Int) : Int := ns

/-- `Nanosecond.Seconds`. -/
def Seconds (ns : Int) : F64 := time.Duration.Seconds ns

/-- `Nanosecond.String`. -/
def String (ns : Int) : String := time.Duration.String ns

end Nanosecond

/-- `Ftos`: `time.Duration(s / nano)`. -/
def Ftos (s : F64) : Option Int := F64.toInt64 (F64.div s nano)

/-- `Stof`: `t.Seconds()`. -/
def Stof (t : Int) : F64 := time.Duration.Seconds t

/-! # Lemmas -/

/-! ## Rounding: error bounds -/

theorem rne_err (n d : Nat) (hd : 0 < d) :
    |(rne n d : ℚ) - (n : ℚ) / d| ≤ 1 / 2 := by
  have hdq : (0 : ℚ) < d := by exact_mod_cast hd
  have hsplit : (n : ℚ) = (d : ℚ) * ((n / d : Nat) : ℚ) + ((n % d : Nat) : ℚ) := by
    exact_mod_cast (Nat.div_add_mod n d).symm
  have hquot : (n : ℚ) / d = ((n / d : Nat) : ℚ) + ((n % d : Nat) : ℚ) / d := by
    rw [div_eq_iff hdq.ne', add_mul, div_mul_cancel₀ _ hdq.ne']
    linarith [hsplit]
  have hr0 : (0 : ℚ) ≤ ((n % d : Nat) : ℚ) / d := by positivity
  have hr1 : ((n % d : Nat) : ℚ) / d < 1 := by
    rw [div_lt_one hdq]
    exact_mod_cast Nat.mod_lt n hd
  unfold rne
  rw [hquot]
  split_ifs with h1 h2 h3
  · have : ((n % d : Nat) : ℚ) / d ≤ 1 / 2 := by
      rw [div_le_iff₀ hdq]
      have : (2 : ℚ) * ((n % d : Nat) : ℚ) < d := by exact_mod_cast h1
      linarith
    rw [abs_le]; constructor <;> linarith
  · have : 1 / 2 ≤ ((n % d : Nat) : ℚ) / d := by
      rw [le_div_iff₀ hdq]
      have : (d : ℚ) < 2 * ((n % d : Nat) : ℚ) := by exact_mod_cast h2
      linarith
    push_cast
    rw [abs_le]; constructor <;> linarith
  · have heq : 2 * (n % d) = d := by omega
    have : ((n % d : Nat) : ℚ) / d = 1 / 2 := by
      rw [div_eq_iff hdq.ne']
      have : (2 : ℚ) * ((n % d : Nat) : ℚ) = d := by exact_mod_cast heq
      linarith
    rw [abs_le]; constructor <;> linarith
  · have heq : 2 * (n % d) = d := by omega
    have : ((n % d : Nat) : ℚ) / d = 1 / 2 := by
      rw [div_eq_iff hdq.ne']
      have : (2 : ℚ) * ((n % d : Nat) : ℚ) = d := by exact_mod_cast heq
      linarith
    push_cast
    rw [abs_le]; constructor <;> linarith

theorem rne_of_dvd (n d : Nat) (hd : 0 < d) (h : d ∣ n) : rne n d = n / d := by
  unfold rne
  rw [Nat.mod_eq_zero_of_dvd h]
  simp [hd]

theorem log2Aux_zero (i : Nat) : log2Aux i 0 = 0 := by
  induction i with
  | zero => rfl
  | succ i ih =>
    have : ¬ (2 ^ 2 ^ i ≤ 0) := by
      have : 0 < 2 ^ 2 ^ i := pow_pos (by norm_num) _
      omega
    simp [log2Aux, this, ih]

theorem two_pow_log2Aux_le (i n : Nat) (hn : 0 < n) : 2 ^ log2Aux i n ≤ n := by
  induction i generalizing n with
  | zero => simpa [log2Aux] using hn
  | succ i ih =>
    unfold log2Aux
    split_ifs with h
    · have hpos : 0 < n / 2 ^ 2 ^ i := Nat.div_pos h (pow_pos (by norm_num) _)
      calc 2 ^ (2 ^ i + log2Aux i (n / 2 ^ 2 ^ i))
          = 2 ^ 2 ^ i * 2 ^ log2Aux i (n / 2 ^ 2 ^ i) := by rw [pow_add]
        _ ≤ 2 ^ 2 ^ i * (n / 2 ^ 2 ^ i) := Nat.mul_le_mul_left _ (ih _ hpos)
        _ ≤ n := Nat.mul_div_le n _
    · exact ih n hn

theorem ulpExp_le (n d j : Nat) (h : n / d < 2 ^ (53 + j)) : ulpExp n d ≤ j := by
  unfold ulpExp ilog2
  rcases Nat.eq_zero_or_pos (n / d) with h0 | hpos
  · rw [h0, log2Aux_zero]; omega
  · have h1 := two_pow_log2Aux_le 12 (n / d) hpos
    have h2 : 2 ^ log2Aux 12 (n / d) < 2 ^ (53 + j) := lt_of_le_of_lt h1 h
    have h3 := (Nat.pow_lt_pow_iff_right (by norm_num : 1 < 2)).1 h2
    omega

theorem two_pow_ulpExp_le (n d : Nat) (hd : 0 < d) :
    (2 : ℚ) ^ ulpExp n d ≤ max 1 ((n : ℚ) / d / 2 ^ 52) := by
  have hdq : (0 : ℚ) < d := by exact_mod_cast hd
  rcases Nat.eq_zero_or_pos (ulpExp n d) with h0 | hpos
  · rw [h0]; simp
  · apply le_max_of_le_right
    have hq : 0 < n / d := by
      rcases Nat.eq_zero_or_pos (n / d) with h0 | h
      · exfalso
        unfold ulpExp ilog2 at hpos
        rw [h0, log2Aux_zero] at hpos
        omega
      · exact h
    have h1 := two_pow_log2Aux_le 12 (n / d) hq
    have h2 : ulpExp n d + 52 = log2Aux 12 (n / d) := by
      unfold ulpExp ilog2 at hpos ⊢; omega
    have h3 : (2 : ℚ) ^ (ulpExp n d + 52) ≤ ((n / d : Nat) : ℚ) := by
      rw [h2]; exact_mod_cast h1
    have h4 : ((n / d : Nat) : ℚ) ≤ (n : ℚ) / d := Nat.cast_div_le
    rw [le_div_iff₀ (by positivity)]
    calc (2 : ℚ) ^ ulpExp n d * 2 ^ 52 = 2 ^ (ulpExp n d + 52) := by rw [pow_add]
      _ ≤ (n : ℚ) / d := le_trans h3 h4

/-- Rounding error of `roundNat`: at most half a unit in the last place, which
is at most `2^-53` of the value outside the subnormal range and half a unit of
`2^-1074` inside it. -/
theorem roundNat_err (n d : Nat) (hd : 0 < d) :
    |(roundNat n d : ℚ) - (n : ℚ) / d| ≤ max (1 / 2) ((n : ℚ) / d / 2 ^ 53) := by
  have hdq : (0 : ℚ) < d := by exact_mod_cast hd
  have hpow : (0 : ℚ) < 2 ^ ulpExp n d := by positivity
  have h1 := rne_err n (d * 2 ^ ulpExp n d) (Nat.mul_pos hd (pow_pos (by norm_num) _))
  have h2 := two_pow_ulpExp_le n d hd
  have hrw : (roundNat n d : ℚ) - (n : ℚ) / d
      = ((rne n (d * 2 ^ ulpExp n d) : ℚ) - (n : ℚ) / ((d * 2 ^ ulpExp n d : Nat) : ℚ))
        * 2 ^ ulpExp n d := by
    unfold roundNat
    push_cast
    field_simp
    ring
  rw [hrw, abs_mul, abs_of_pos hpow]
  calc |(rne n (d * 2 ^ ulpExp n d) : ℚ) - (n : ℚ) / ((d * 2 ^ ulpExp n d : Nat) : ℚ)|
        * 2 ^ ulpExp n d
      ≤ 1 / 2 * 2 ^ ulpExp n d := by
        exact mul_le_mul_of_nonneg_right h1 hpow.le
    _ ≤ 1 / 2 * max 1 ((n : ℚ) / d / 2 ^ 52) := by
        exact mul_le_mul_of_nonneg_left h2 (by norm_num)
    _ = max (1 / 2) ((n : ℚ) / d / 2 ^ 53) := by
        have e1 : (1 / 2 : ℚ) * 1 = 1 / 2 := by norm_num
        have e2 : (1 / 2 : ℚ) * ((n : ℚ) / d / 2 ^ 52) = (n : ℚ) / d / 2 ^ 53 := by
          rw [show (2 : ℚ) ^ 53 = 2 ^ 52 * 2 by norm_num, div_mul_eq_div_div]
          ring
        rw [mul_max_of_nonneg _ _ (by norm_num : (0 : ℚ) ≤ 1 / 2), e1, e2]

theorem roundNat_of_dvd (n : Nat) (h : 2 ^ ulpExp n 1 ∣ n) : roundNat n 1 = n := by
  unfold roundNat
  rw [one_mul, rne_of_dvd n _ (pow_pos (by norm_num) _) h]
  exact Nat.div_mul_cancel h

namespace F64

theorem sg_xor (a b : Bool) : sg (xor a b) = sg a * sg b := by
  cases a <;> cases b <;> simp [sg]

theorem abs_sg (a : Bool) : |sg a| = 1 := by
  cases a <;> simp [sg]

theorem sg_mul_self (a : Bool) : sg a * sg a = 1 := by
  cases a <;> simp [sg]

theorem sg_inv (a : Bool) : (sg a)⁻¹ = sg a := by
  cases a <;> norm_num [sg]

theorem sg_ne_zero (a : Bool) : sg a ≠ 0 := by
  cases a <;> simp [sg]

theorem toRat_fin (a : Bool) (k : Nat) : toRat (fin a k) = sg a * k / 2 ^ 1074 := by
  cases a <;> simp [toRat, sg]

theorem isFinite_iff (v : F64) : v.isFinite = true ↔ ∃ a k, v = fin a k := by
  cases v <;> simp [isFinite]

/-- A quotient below `2^1023` (in units of `2^-1074`: below `2^2097`) rounds to
a finite value, within the rounding error of `roundNat`. -/
theorem round_spec (neg : Bool) (n d : Nat) (hd : 0 < d)
    (h : (n : ℚ) / d < 2 ^ 2097) :
    round neg n d = fin neg (roundNat n d) ∧
    |(roundNat n d : ℚ) - (n : ℚ) / d| ≤ (n : ℚ) / d / 2 ^ 53 + 1 / 2 := by
  have hdq : (0 : ℚ) < d := by exact_mod_cast hd
  have hx0 : (0 : ℚ) ≤ (n : ℚ) / d := div_nonneg (Nat.cast_nonneg _) (Nat.cast_nonneg _)
  have herr : |(roundNat n d : ℚ) - (n : ℚ) / d| ≤ (n : ℚ) / d / 2 ^ 53 + 1 / 2 := by
    refine le_trans (roundNat_err n d hd) (max_le ?_ ?_)
    · have : (0 : ℚ) ≤ (n : ℚ) / d / 2 ^ 53 := div_nonneg hx0 (by norm_num)
      linarith
    · linarith
  refine ⟨?_, herr⟩
  have hlt : roundNat n d < overflowBound := by
    have hP : (1 : ℚ) ≤ 2 ^ 2097 := one_le_pow₀ one_le_two
    have h2 : (2 : ℚ) ^ 2098 = 2 ^ 2097 * 2 := pow_succ 2 2097
    have hub : (roundNat n d : ℚ) < 2 ^ 2098 := by
      have := (abs_le.1 herr).2
      rw [h2]
      generalize (2 : ℚ) ^ 2097 = P at *
      have h53 : (n : ℚ) / d / 2 ^ 53 ≤ P / 2 ^ 53 :=
        div_le_div_of_nonneg_right h.le (by norm_num)
      have h53' : P / 2 ^ 53 ≤ P / 4 :=
        div_le_div_of_nonneg_left (by linarith) (by norm_num) (by norm_num)
      linarith
    unfold overflowBound
    exact_mod_cast hub
  unfold round
  rw [if_pos hlt]

/-- Division of finite values, the divisor not zero and the quotient below
`2^1023`: the result is finite and within `2^-53` of the quotient, relatively,
up to half a subnormal unit. -/
theorem div_spec (a b : F64) (ha : a.isFinite = true) (hb : b.isFinite = true)
    (hb0 : b.toRat ≠ 0) (hq : |a.toRat / b.toRat| < hugeBound) :
    (div a b).isFinite = true ∧
    |(div a b).toRat - a.toRat / b.toRat| ≤
      |a.toRat / b.toRat| / 2 ^ 53 + halfUnit := by
  unfold hugeBound at hq
  unfold halfUnit
  obtain ⟨sa, x, rfl⟩ := (isFinite_iff a).1 ha
  obtain ⟨sb, y, rfl⟩ := (isFinite_iff b).1 hb
  have hK : (0 : ℚ) < 2 ^ 1074 := pow_pos two_pos 1074
  have hy : 0 < y := by
    rcases Nat.eq_zero_or_pos y with h0 | h
    · exfalso; apply hb0; rw [toRat_fin, h0]; simp
    · exact h
  have hyq : (0 : ℚ) < y := by exact_mod_cast hy
  have hquot : (fin sa x).toRat / (fin sb y).toRat = sg (xor sa sb) * ((x : ℚ) / y) := by
    rw [toRat_fin, toRat_fin, sg_xor]
    generalize (2 : ℚ) ^ 1074 = K at hK
    rw [div_div_div_cancel_right₀ hK.ne', mul_div_mul_comm, div_eq_mul_inv (sg sa), sg_inv]
  have hxy : (0 : ℚ) ≤ (x : ℚ) / y := div_nonneg (Nat.cast_nonneg _) (Nat.cast_nonneg _)
  have habs : |(fin sa x).toRat / (fin sb y).toRat| = (x : ℚ) / y := by
    rw [hquot, abs_mul, abs_sg, one_mul, abs_of_nonneg hxy]
  rw [habs] at hq ⊢
  have hscaled : ((x * 2 ^ 1074 : Nat) : ℚ) / y = (x : ℚ) / y * 2 ^ 1074 := by
    push_cast; ring
  have hbound : ((x * 2 ^ 1074 : Nat) : ℚ) / y < 2 ^ 2097 := by
    rw [hscaled, show (2 : ℚ) ^ 2097 = 2 ^ 1023 * 2 ^ 1074 from pow_add 2 1023 1074]
    exact mul_lt_mul_of_pos_right hq hK
  obtain ⟨hr, herr⟩ := round_spec (xor sa sb) (x * 2 ^ 1074) y hy hbound
  have hdiv : div (fin sa x) (fin sb y) = fin (xor sa sb) (roundNat (x * 2 ^ 1074) y) := by
    simp only [div]
    rw [if_neg (by omega), hr]
  rw [hdiv]
  refine ⟨rfl, ?_⟩
  rw [hquot, toRat_fin]
  have hrw : sg (xor sa sb) * (roundNat (x * 2 ^ 1074) y : ℚ) / 2 ^ 1074
      - sg (xor sa sb) * ((x : ℚ) / y)
      = sg (xor sa sb) * (((roundNat (x * 2 ^ 1074) y : ℚ)
          - ((x * 2 ^ 1074 : Nat) : ℚ) / y) / 2 ^ 1074) := by
    rw [hscaled]
    generalize (2 : ℚ) ^ 1074 = K at hK
    field_simp
    ring
  rw [hrw, abs_mul, abs_sg, one_mul, abs_div, abs_of_pos hK, div_le_iff₀ hK]
  rw [hscaled] at herr
  calc |(roundNat (x * 2 ^ 1074) y : ℚ) - ((x * 2 ^ 1074 : Nat) : ℚ) / y|
      = |(roundNat (x * 2 ^ 1074) y : ℚ) - (x : ℚ) / y * 2 ^ 1074| := by rw [hscaled]
    _ ≤ (x : ℚ) / y * 2 ^ 1074 / 2 ^ 53 + 1 / 2 := herr
    _ = ((x : ℚ) / y / 2 ^ 53 + 1 / 2 ^ 1075) * 2 ^ 1074 := by
        rw [show (2 : ℚ) ^ 1075 = 2 ^ 1074 * 2 from pow_succ 2 1074]
        generalize (2 : ℚ) ^ 1074 = K at hK
        field_simp
        ring

end F64

/-! ## Truncation towards zero -/

theorem truncQ_intCast (z : Int) : truncQ (z : ℚ) = z := by
  unfold truncQ
  split_ifs <;> simp

theorem truncQ_sub_lt (x : ℚ) : |(truncQ x : ℚ) - x| < 1 := by
  unfold truncQ
  split_ifs with h
  · have h1 := Int.floor_le x
    have h2 := Int.lt_floor_add_one x
    rw [abs_lt]; constructor <;> linarith
  · have h1 := Int.le_ceil x
    have h2 := Int.ceil_lt_add_one x
    rw [abs_lt]; constructor <;> linarith

theorem abs_truncQ_le (x : ℚ) : |(truncQ x : ℚ)| ≤ |x| := by
  unfold truncQ
  split_ifs with h
  · have h1 := Int.floor_le x
    have h2 : (0 : ℚ) ≤ (⌊x⌋ : ℚ) := by exact_mod_cast Int.floor_nonneg.2 h
    rw [abs_of_nonneg h2, abs_of_nonneg h]; exact h1
  · push_neg at h
    have h1 := Int.le_ceil x
    have h2 : ((⌈x⌉ : Int) : ℚ) ≤ 0 := by
      exact_mod_cast Int.ceil_le.2 (by simpa using h.le)
    rw [abs_of_nonpos h2, abs_of_neg h]; linarith

theorem truncQ_le_add_one (x y : ℚ) (h : x < y + 1) : truncQ x ≤ truncQ y + 1 := by
  have key : (truncQ x : ℚ) < (truncQ y : ℚ) + 2 := by
    unfold truncQ
    by_cases hx : 0 ≤ x <;> by_cases hy : 0 ≤ y
    · rw [if_pos hx, if_pos hy]
      have h1 := Int.floor_le x
      have h2 := Int.lt_floor_add_one y
      linarith
    · rw [if_pos hx, if_neg hy]
      push_neg at hy
      have h1 := Int.floor_le x
      have h2 := Int.le_ceil y
      linarith
    · rw [if_neg hx, if_pos hy]
      push_neg at hx
      have h1 : ((⌈x⌉ : Int) : ℚ) ≤ 0 := by
        exact_mod_cast Int.ceil_le.2 (by simpa using hx.le)
      have h2 : (0 : ℚ) ≤ (⌊y⌋ : ℚ) := by exact_mod_cast Int.floor_nonneg.2 hy
      linarith
    · rw [if_neg hx, if_neg hy]
      have h1 := Int.ceil_lt_add_one x
      have h2 := Int.le_ceil y
      linarith
  have key' : truncQ x < truncQ y + 2 := by exact_mod_cast key
  omega

/-- Values less than one apart truncate to integers at most one apart. -/
theorem truncQ_close (x y : ℚ) (h : |x - y| < 1) : |truncQ x - truncQ y| ≤ 1 := by
  have h1 := truncQ_le_add_one x y (by linarith [(abs_lt.1 h).2])
  have h2 := truncQ_le_add_one y x (by linarith [(abs_lt.1 h).1])
  rw [abs_le]; constructor <;> omega

theorem truncQ_le_of_lt (x : ℚ) (z : Int) (hz : 0 ≤ z) (h : x < z + 1) : truncQ x ≤ z := by
  unfold truncQ
  split_ifs with hx
  · have h1 := Int.floor_le x
    have : ((⌊x⌋ : Int) : ℚ) < (z : ℚ) + 1 := by linarith
    have : ⌊x⌋ < z + 1 := by exact_mod_cast this
    omega
  · push_neg at hx
    have : ⌈x⌉ ≤ 0 := Int.ceil_le.2 (by simpa using hx.le)
    omega

theorem floor_div_two_pow (r e : Nat) :
    ⌊(r : ℚ) / 2 ^ e⌋ = ((r / 2 ^ e : Nat) : Int) := by
  have h := Rat.floor_natCast_div_natCast r (2 ^ e)
  push_cast at h
  rw [h]
  norm_cast

namespace F64

/-- In range, the float-to-integer conversion is truncation of the value. -/
theorem toInt64_spec (v : F64) (hv : v.isFinite = true) (h : |v.toRat| < 2 ^ 63) :
    toInt64 v = some (truncQ v.toRat) := by
  obtain ⟨a, r, rfl⟩ := (isFinite_iff v).1 hv
  have hK : (0 : ℚ) < 2 ^ 1074 := pow_pos two_pos 1074
  have hfl : ⌊(r : ℚ) / 2 ^ 1074⌋ = ((r / 2 ^ 1074 : Nat) : Int) := floor_div_two_pow r 1074
  have hrK : (0 : ℚ) ≤ (r : ℚ) / 2 ^ 1074 := div_nonneg (Nat.cast_nonneg _) hK.le
  have habs : |(fin a r).toRat| = (r : ℚ) / 2 ^ 1074 := by
    rw [toRat_fin, mul_div_assoc, abs_mul, abs_sg, one_mul, abs_of_nonneg hrK]
  rw [habs] at h
  have hnat : ((r / 2 ^ 1074 : Nat) : Int) < 2 ^ 63 := by
    have h1 : (((r / 2 ^ 1074 : Nat) : Int) : ℚ) ≤ (r : ℚ) / 2 ^ 1074 := by
      rw [← hfl]; exact Int.floor_le _
    have h2 : (((r / 2 ^ 1074 : Nat) : Int) : ℚ) < 2 ^ 63 := lt_of_le_of_lt h1 h
    exact_mod_cast h2
  have htr : truncQ (fin a r).toRat = signed a (r / 2 ^ 1074) := by
    rw [toRat_fin, mul_div_assoc]
    cases a
    · simp only [sg, signed, Bool.false_eq_true, if_false, one_mul]
      unfold truncQ
      rw [if_pos hrK, hfl]
    · simp only [sg, signed, if_true]
      unfold truncQ
      split_ifs with h0
      · have hz : (r : ℚ) / 2 ^ 1074 = 0 := by linarith
        have hfl0 : ((r / 2 ^ 1074 : Nat) : Int) = 0 := by rw [← hfl, hz]; simp
        rw [hfl0, show (-1 : ℚ) * ((r : ℚ) / 2 ^ 1074) = 0 by rw [hz]; ring]
        simp
      · rw [show (-1 : ℚ) * ((r : ℚ) / 2 ^ 1074) = -((r : ℚ) / 2 ^ 1074) by ring,
          Int.ceil_neg, hfl]
  have hsg : -(2 ^ 63 : Int) ≤ signed a (r / 2 ^ 1074) ∧ signed a (r / 2 ^ 1074) < 2 ^ 63 := by
    have h0 : (0 : Int) ≤ ((r / 2 ^ 1074 : Nat) : Int) := Int.natCast_nonneg _
    cases a <;> simp only [signed, Bool.false_eq_true, if_false, if_true] <;> constructor <;> omega
  simp only [toInt64]
  rw [if_pos hsg, htr]

/-- Multiplication of finite values with a product below `2^1023`: the result
is finite and within `2^-53` of the product, relatively, up to half a
subnormal unit. -/
theorem mul_spec (a b : F64) (ha : a.isFinite = true) (hb : b.isFinite = true)
    (hq : |a.toRat * b.toRat| < hugeBound) :
    (mul a b).isFinite = true ∧
    |(mul a b).toRat - a.toRat * b.toRat| ≤
      |a.toRat * b.toRat| / 2 ^ 53 + halfUnit := by
  unfold hugeBound at hq
  unfold halfUnit
  obtain ⟨sa, x, rfl⟩ := (isFinite_iff a).1 ha
  obtain ⟨sb, y, rfl⟩ := (isFinite_iff b).1 hb
  have hK : (0 : ℚ) < 2 ^ 1074 := pow_pos two_pos 1074
  have hKn : 0 < 2 ^ 1074 := pow_pos two_pos 1074
  have hcast : ((2 ^ 1074 : Nat) : ℚ) = 2 ^ 1074 := by
    rw [Nat.cast_pow, Nat.cast_ofNat]
  have hprod : (fin sa x).toRat * (fin sb y).toRat
      = sg (xor sa sb) * ((x : ℚ) * y / 2 ^ 1074 / 2 ^ 1074) := by
    rw [toRat_fin, toRat_fin, sg_xor]
    generalize (2 : ℚ) ^ 1074 = K at hK
    field_simp
    ring
  have hxy : (0 : ℚ) ≤ (x : ℚ) * y / 2 ^ 1074 / 2 ^ 1074 :=
    div_nonneg (div_nonneg (mul_nonneg (Nat.cast_nonneg _) (Nat.cast_nonneg _)) hK.le) hK.le
  have habs : |(fin sa x).toRat * (fin sb y).toRat| = (x : ℚ) * y / 2 ^ 1074 / 2 ^ 1074 := by
    rw [hprod, abs_mul, abs_sg, one_mul, abs_of_nonneg hxy]
  rw [habs] at hq ⊢
  have hscaled : ((x * y : Nat) : ℚ) / ((2 ^ 1074 : Nat) : ℚ)
      = (x : ℚ) * y / 2 ^ 1074 / 2 ^ 1074 * 2 ^ 1074 := by
    rw [hcast]
    generalize (2 : ℚ) ^ 1074 = K at hK
    push_cast
    field_simp
    ring
  have hbound : ((x * y : Nat) : ℚ) / ((2 ^ 1074 : Nat) : ℚ) < 2 ^ 2097 := by
    rw [hscaled, show (2 : ℚ) ^ 2097 = 2 ^ 1023 * 2 ^ 1074 from pow_add 2 1023 1074]
    exact mul_lt_mul_of_pos_right hq hK
  obtain ⟨hr, herr⟩ := round_spec (xor sa sb) (x * y) (2 ^ 1074) hKn hbound
  have hmul : mul (fin sa x) (fin sb y) = fin (xor sa sb) (roundNat (x * y) (2 ^ 1074)) := by
    simp only [mul]
    rw [hr]
  rw [hmul]
  refine ⟨rfl, ?_⟩
  rw [hprod, toRat_fin]
  rw [hscaled] at herr
  have hrw : sg (xor sa sb) * (roundNat (x * y) (2 ^ 1074) : ℚ) / 2 ^ 1074
      - sg (xor sa sb) * ((x : ℚ) * y / 2 ^ 1074 / 2 ^ 1074)
      = sg (xor sa sb) * (((roundNat (x * y) (2 ^ 1074) : ℚ)
          - (x : ℚ) * y / 2 ^ 1074 / 2 ^ 1074 * 2 ^ 1074) / 2 ^ 1074) := by
    generalize (2 : ℚ) ^ 1074 = K at hK
    field_simp
    ring
  rw [hrw, abs_mul, abs_sg, one_mul, abs_div, abs_of_pos hK, div_le_iff₀ hK]
  calc |(roundNat (x * y) (2 ^ 1074) : ℚ) - (x : ℚ) * y / 2 ^ 1074 / 2 ^ 1074 * 2 ^ 1074|
      ≤ (x : ℚ) * y / 2 ^ 1074 / 2 ^ 1074 * 2 ^ 1074 / 2 ^ 53 + 1 / 2 := herr
    _ = ((x : ℚ) * y / 2 ^ 1074 / 2 ^ 1074 / 2 ^ 53 + 1 / 2 ^ 1075) * 2 ^ 1074 := by
        rw [show (2 : ℚ) ^ 1075 = 2 ^ 1074 * 2 from pow_succ 2 1074]
        generalize (2 : ℚ) ^ 1074 = K at hK
        field_simp
        ring

theorem signed_cast (a : Bool) (k : Nat) : ((signed a k : Int) : ℚ) = sg a * k := by
  cases a <;> simp [signed, sg]

/-- Addition of finite values with a sum below `2^1023`: the result is finite
and within `2^-53` of the sum, relatively, up to half a subnormal unit. -/
theorem add_spec (a b : F64) (ha : a.isFinite = true) (hb : b.isFinite = true)
    (hq : |a.toRat + b.toRat| < hugeBound) :
    (add a b).isFinite = true ∧
    |(add a b).toRat - (a.toRat + b.toRat)| ≤
      |a.toRat + b.toRat| / 2 ^ 53 + halfUnit := by
  unfold hugeBound at hq
  unfold halfUnit
  obtain ⟨sa, x, rfl⟩ := (isFinite_iff a).1 ha
  obtain ⟨sb, y, rfl⟩ := (isFinite_iff b).1 hb
  have hK : (0 : ℚ) < 2 ^ 1074 := pow_pos two_pos 1074
  have hsum : (fin sa x).toRat + (fin sb y).toRat
      = ((signed sa x + signed sb y : Int) : ℚ) / 2 ^ 1074 := by
    rw [toRat_fin, toRat_fin, Int.cast_add, signed_cast, signed_cast]
    ring
  have hadd : add (fin sa x) (fin sb y)
      = if signed sa x + signed sb y = 0 then fin (sa && sb) 0
        else round (decide (signed sa x + signed sb y < 0))
          (signed sa x + signed sb y).natAbs 1 := rfl
  rw [hsum] at hq
  rw [hadd, hsum]
  generalize signed sa x + signed sb y = S at hq ⊢
  have hu : (0 : ℚ) ≤ 1 / 2 ^ 1075 := one_div_nonneg.2 (pow_pos two_pos 1075).le
  by_cases hS : S = 0
  · rw [if_pos hS, hS, toRat_fin]
    refine ⟨rfl, ?_⟩
    rw [Nat.cast_zero, mul_zero, zero_div, Int.cast_zero, zero_div, sub_zero, abs_zero,
      zero_div, zero_add]
    exact hu
  · rw [if_neg hS]
    have hSabs : ((S.natAbs : Nat) : ℚ) = |(S : ℚ)| := by
      rw [Nat.cast_natAbs, Int.cast_abs]
    have hSsg : (S : ℚ) = sg (decide (S < 0)) * |(S : ℚ)| := by
      by_cases hneg : S < 0
      · have : (S : ℚ) < 0 := by exact_mod_cast hneg
        simp [sg, hneg, abs_of_neg this]
      · have : (0 : ℚ) ≤ (S : ℚ) := by exact_mod_cast (not_lt.1 hneg)
        simp [sg, hneg, abs_of_nonneg this]
    have hqabs : |(S : ℚ)| < 2 ^ 2097 := by
      rw [abs_div, abs_of_pos hK, div_lt_iff₀ hK] at hq
      rw [show (2 : ℚ) ^ 2097 = 2 ^ 1023 * 2 ^ 1074 from pow_add 2 1023 1074]
      exact hq
    have hbound : ((S.natAbs : Nat) : ℚ) / ((1 : Nat) : ℚ) < 2 ^ 2097 := by
      rw [Nat.cast_one, div_one, hSabs]; exact hqabs
    obtain ⟨hr, herr⟩ := round_spec (decide (S < 0)) S.natAbs 1 Nat.one_pos hbound
    rw [hr]
    refine ⟨rfl, ?_⟩
    rw [Nat.cast_one, div_one, hSabs] at herr
    rw [toRat_fin]
    have hA : (0 : ℚ) ≤ |(S : ℚ)| := abs_nonneg _
    have hrw : sg (decide (S < 0)) * (roundNat S.natAbs 1 : ℚ) / 2 ^ 1074 - (S : ℚ) / 2 ^ 1074
        = sg (decide (S < 0)) * (((roundNat S.natAbs 1 : ℚ) - |(S : ℚ)|) / 2 ^ 1074) := by
      have h1 : (S : ℚ) / 2 ^ 1074 = sg (decide (S < 0)) * |(S : ℚ)| / 2 ^ 1074 := by
        rw [← hSsg]
      rw [h1]
      generalize (2 : ℚ) ^ 1074 = K
      ring
    rw [hrw, abs_mul, abs_sg, one_mul, abs_div, abs_of_pos hK, div_le_iff₀ hK,
      abs_div, abs_of_pos hK]
    generalize |(S : ℚ)| = A at herr hA ⊢
    refine le_trans herr (le_of_eq ?_)
    rw [show (2 : ℚ) ^ 1075 = 2 ^ 1074 * 2 from pow_succ 2 1074]
    generalize (2 : ℚ) ^ 1074 = K at hK
    field_simp
    ring

/-- Conversion of an integer below `2^53` in magnitude is exact. -/
theorem ofInt_spec (i : Int) (h : i.natAbs < 2 ^ 53) :
    ofInt i = fin (decide (i < 0)) (i.natAbs * 2 ^ 1074) ∧
    (ofInt i).isFinite = true ∧ (ofInt i).toRat = i := by
  have hK : (0 : ℚ) < 2 ^ 1074 := pow_pos two_pos 1074
  have hlt : i.natAbs * 2 ^ 1074 < 2 ^ (53 + 1074) := by
    rw [pow_add]
    exact Nat.mul_lt_mul_of_pos_right h (pow_pos two_pos 1074)
  have hexp : ulpExp (i.natAbs * 2 ^ 1074) 1 ≤ 1074 :=
    ulpExp_le _ _ _ (by rw [Nat.div_one]; exact hlt)
  have hdvd : 2 ^ ulpExp (i.natAbs * 2 ^ 1074) 1 ∣ i.natAbs * 2 ^ 1074 :=
    Dvd.dvd.mul_left (pow_dvd_pow 2 hexp) _
  have hrn : roundNat (i.natAbs * 2 ^ 1074) 1 = i.natAbs * 2 ^ 1074 := roundNat_of_dvd _ hdvd
  have hov : roundNat (i.natAbs * 2 ^ 1074) 1 < overflowBound := by
    rw [hrn]
    unfold overflowBound
    exact lt_trans hlt (Nat.pow_lt_pow_right (by norm_num) (by norm_num))
  have hof : ofInt i = fin (decide (i < 0)) (i.natAbs * 2 ^ 1074) := by
    unfold ofInt round
    rw [if_pos hov, hrn]
  refine ⟨hof, by rw [hof]; rfl, ?_⟩
  rw [hof, toRat_fin]
  have hcast : ((i.natAbs * 2 ^ 1074 : Nat) : ℚ) = |(i : ℚ)| * 2 ^ 1074 := by
    rw [Nat.cast_mul, Nat.cast_natAbs, Int.cast_abs, Nat.cast_pow, Nat.cast_ofNat]
  rw [hcast]
  by_cases hneg : i < 0
  · have : (i : ℚ) < 0 := by exact_mod_cast hneg
    rw [abs_of_neg this]
    simp only [sg, hneg, decide_True, if_true]
    generalize (2 : ℚ) ^ 1074 = K at hK
    field_simp
  · have : (0 : ℚ) ≤ (i : ℚ) := by exact_mod_cast (not_lt.1 hneg)
    rw [abs_of_nonneg this]
    simp only [sg, hneg, decide_False, Bool.false_eq_true, if_false]
    generalize (2 : ℚ) ^ 1074 = K at hK
    field_simp

theorem nano_eq : nano = fin false (4835703278458517 * 2 ^ 992) := by decide

theorem nano_spec : nano.isFinite = true ∧ nano.toRat = 4835703278458517 / 2 ^ 82 := by
  rw [nano_eq]
  refine ⟨rfl, ?_⟩
  rw [toRat_fin, Nat.cast_mul, Nat.cast_pow, Nat.cast_ofNat,
    show (2 : ℚ) ^ 1074 = 2 ^ 992 * 2 ^ 82 from pow_add 2 992 82]
  have h992 : (0 : ℚ) < 2 ^ 992 := pow_pos two_pos 992
  generalize (2 : ℚ) ^ 992 = A at h992
  simp only [sg, Bool.false_eq_true, if_false]
  field_simp
  ring

end F64

theorem natAbs_tmod_lt (d : Int) (n : Nat) (hn : 0 < n) : (d.tmod n).natAbs < n := by
  cases d with
  | ofNat m =>
    show (Int.ofNat (m % n)).natAbs < n
    exact Nat.mod_lt _ hn
  | negSucc m =>
    show (-Int.ofNat (Nat.succ m % n)).natAbs < n
    rw [Int.natAbs_neg]
    exact Nat.mod_lt _ hn

/-- Half a subnormal unit is tiny. -/
theorem half_unit_le : F64.halfUnit ≤ 1 / 2 ^ 128 := by
  unfold F64.halfUnit
  exact one_div_le_one_div_of_le (pow_pos two_pos 128)
    (pow_le_pow_right₀ one_le_two (by norm_num))

theorem half_unit_nonneg : (0 : ℚ) ≤ F64.halfUnit := by
  unfold F64.halfUnit
  exact one_div_nonneg.2 (pow_pos two_pos 1075).le

theorem two_pow_lt_huge (e : Nat) (h : e < 1023) : (2 : ℚ) ^ e < F64.hugeBound := by
  unfold F64.hugeBound
  exact pow_lt_pow_right₀ one_lt_two h

/-- Division by `nano`: for a finite `s` with `|s| * 10^9 ≤ 2^62` the quotient
`s / nano` is finite and differs from `s * 10^9` by at most
`1.75e-16 * |s| * 10^9` plus half a subnormal unit.  The relative error has two
sources: `nano` is the binary64 nearest to `10^-9`, which is above `10^-9`
by `6.2e-17`, relatively, and the quotient is rounded (`2^-53 ≈ 1.1e-16`). -/
theorem div_nano_spec (s : F64) (hs : s.isFinite = true)
    (hr : |s.toRat| * 10 ^ 9 ≤ 2 ^ 62) :
    (F64.div s nano).isFinite = true ∧
    |(F64.div s nano).toRat - s.toRat * 10 ^ 9| ≤
      |s.toRat| * 10 ^ 9 * (7 / (4 * 10 ^ 16)) + F64.halfUnit := by
  obtain ⟨hnf, hnv⟩ := F64.nano_spec
  have hq0 : (0 : ℚ) ≤ |s.toRat| := abs_nonneg _
  have hquot : s.toRat / nano.toRat = s.toRat * (2 ^ 82 / 4835703278458517) := by
    rw [hnv]; field_simp
  have habs : |s.toRat / nano.toRat| = |s.toRat| * (2 ^ 82 / 4835703278458517) := by
    rw [hquot, abs_mul, abs_of_pos (by norm_num : (0 : ℚ) < 2 ^ 82 / 4835703278458517)]
  have hle : |s.toRat / nano.toRat| ≤ 2 ^ 62 := by
    rw [habs]
    have : |s.toRat| * (2 ^ 82 / 4835703278458517) ≤ |s.toRat| * 10 ^ 9 :=
      mul_le_mul_of_nonneg_left (by norm_num) hq0
    linarith
  have hn0 : nano.toRat ≠ 0 := by rw [hnv]; norm_num
  have hlt : |s.toRat / nano.toRat| < F64.hugeBound :=
    lt_of_le_of_lt hle (two_pow_lt_huge 62 (by norm_num))
  obtain ⟨hf, herr⟩ := F64.div_spec s nano hs hnf hn0 hlt
  refine ⟨hf, ?_⟩
  rw [habs] at herr
  have hgap : |s.toRat / nano.toRat - s.toRat * 10 ^ 9|
      = |s.toRat| * (10 ^ 9 - 2 ^ 82 / 4835703278458517) := by
    rw [hquot, ← mul_sub, abs_mul, abs_sub_comm,
      abs_of_pos (by norm_num : (0 : ℚ) < 10 ^ 9 - 2 ^ 82 / 4835703278458517)]
  have htri : |(F64.div s nano).toRat - s.toRat * 10 ^ 9|
      ≤ |(F64.div s nano).toRat - s.toRat / nano.toRat|
        + |s.toRat / nano.toRat - s.toRat * 10 ^ 9| := abs_sub_le _ _ _
  have hconst : (2 : ℚ) ^ 82 / 4835703278458517 / 2 ^ 53
      + (10 ^ 9 - 2 ^ 82 / 4835703278458517) ≤ 10 ^ 9 * (7 / (4 * 10 ^ 16)) := by
    norm_num
  have hmul := mul_le_mul_of_nonneg_left hconst hq0
  generalize F64.halfUnit = u at herr ⊢
  rw [hgap] at htri
  generalize |(F64.div s nano).toRat - s.toRat * 10 ^ 9| = lhs at htri ⊢
  generalize |(F64.div s nano).toRat - s.toRat / nano.toRat| = e1 at htri herr
  nlinarith [htri, herr, hmul]

/-- In the range `|s| * 10^9 ≤ 2^62`, `Ftos(s)` is the truncation of the
rounded quotient `s / nano`. -/
theorem Ftos_spec (s : F64) (hs : s.isFinite = true)
    (hr : |s.toRat| * 10 ^ 9 ≤ 2 ^ 62) :
    Ftos s = some (truncQ (F64.div s nano).toRat) := by
  obtain ⟨hf, herr⟩ := div_nano_spec s hs hr
  unfold Ftos
  apply F64.toInt64_spec _ hf
  have hu := half_unit_le
  have hq0 : (0 : ℚ) ≤ |s.toRat| := abs_nonneg _
  have h1 : |(F64.div s nano).toRat| ≤ |(F64.div s nano).toRat - s.toRat * 10 ^ 9|
      + |s.toRat * 10 ^ 9| := by
    have := abs_add ((F64.div s nano).toRat - s.toRat * 10 ^ 9) (s.toRat * 10 ^ 9)
    simpa using this
  have h2 : |s.toRat * 10 ^ 9| = |s.toRat| * 10 ^ 9 := by
    rw [abs_mul, abs_of_pos (by norm_num : (0 : ℚ) < 10 ^ 9)]
  rw [h2] at h1
  generalize F64.halfUnit = u at herr hu
  generalize |(F64.div s nano).toRat - s.toRat * 10 ^ 9| = e at herr h1
  generalize |(F64.div s nano).toRat| = r at h1 ⊢
  generalize |s.toRat| = a at *
  norm_num at hu hr ⊢
  nlinarith

/-- `Duration.Seconds` of an `int64` count: finite, and within
`(|d| / 10^9 + 2) * 2^-53` of the exact number of seconds `d / 10^9`. -/
theorem Seconds_spec (d : Int) (hd : d.natAbs ≤ 2 ^ 63) :
    (time.Duration.Seconds d).isFinite = true ∧
    |(time.Duration.Seconds d).toRat - (d : ℚ) / 10 ^ 9| ≤
      (|(d : ℚ)| / 10 ^ 9 + 2) / 2 ^ 53 := by
  have hS : time.Second = ((1000000000 : Nat) : Int) := by decide
  unfold time.Duration.Seconds
  rw [hS]
  have hdecomp := Int.tdiv_add_tmod d ((1000000000 : Nat) : Int)
  have hsecN : (d.tdiv ((1000000000 : Nat) : Int)).natAbs < 2 ^ 53 := by
    rw [Int.natAbs_tdiv]
    show d.natAbs / 1000000000 < 2 ^ 53
    norm_num at hd ⊢
    omega
  have hnsecN : (d.tmod ((1000000000 : Nat) : Int)).natAbs < 1000000000 :=
    natAbs_tmod_lt d 1000000000 (by norm_num)
  generalize d.tdiv ((1000000000 : Nat) : Int) = sec at *
  generalize d.tmod ((1000000000 : Nat) : Int) = nsec at *
  obtain ⟨-, hsf, hsv⟩ := F64.ofInt_spec sec hsecN
  obtain ⟨-, hnf, hnv⟩ := F64.ofInt_spec nsec (lt_trans hnsecN (by norm_num))
  obtain ⟨-, hcf, hcv⟩ := F64.ofInt_spec 1000000000 (by norm_num)
  have hdq : (d : ℚ) = 10 ^ 9 * sec + nsec := by
    rw [← hdecomp]; push_cast; ring
  have hnabs : |(nsec : ℚ)| < 10 ^ 9 := by
    have h1 : ((nsec.natAbs : Nat) : ℚ) < 1000000000 := by exact_mod_cast hnsecN
    rw [Nat.cast_natAbs, Int.cast_abs] at h1
    linarith
  have hsabs : |(sec : ℚ)| < 2 ^ 53 := by
    have h1 : ((sec.natAbs : Nat) : ℚ) < 2 ^ 53 := by exact_mod_cast hsecN
    rw [Nat.cast_natAbs, Int.cast_abs] at h1
    exact h1
  have hc0 : (F64.ofInt 1000000000).toRat ≠ 0 := by rw [hcv]; norm_num
  have hq1abs : |(F64.ofInt nsec).toRat / (F64.ofInt 1000000000).toRat| < 1 := by
    rw [hnv, hcv, abs_div]
    rw [div_lt_one (by norm_num)]
    simpa using hnabs
  obtain ⟨hqf, hqerr⟩ := F64.div_spec _ _ hnf hcf hc0
    (lt_trans hq1abs (by simpa using two_pow_lt_huge 0 (by norm_num)))
  have hu := half_unit_le
  have hu0 := half_unit_nonneg
  rw [hnv, hcv] at hqerr hq1abs
  generalize (F64.div (F64.ofInt nsec) (F64.ofInt 1000000000)) = q1 at *
  have hq1close : |q1.toRat - (nsec : ℚ) / 10 ^ 9| ≤ 1 / 2 ^ 53 + F64.halfUnit := by
    have h1 : |((nsec : ℚ)) / ((1000000000 : Int) : ℚ)| / 2 ^ 53 ≤ 1 / 2 ^ 53 :=
      div_le_div_of_nonneg_right hq1abs.le (by norm_num)
    have h2 : ((1000000000 : Int) : ℚ) = 10 ^ 9 := by norm_num
    rw [h2] at hqerr h1
    linarith
  have hsumexact : (sec : ℚ) + (nsec : ℚ) / 10 ^ 9 = (d : ℚ) / 10 ^ 9 := by
    rw [hdq]; field_simp; ring
  have hsumabs : |(F64.ofInt sec).toRat + q1.toRat|
      ≤ |(d : ℚ)| / 10 ^ 9 + (1 / 2 ^ 53 + F64.halfUnit) := by
    rw [hsv]
    have h1 : (sec : ℚ) + q1.toRat = (d : ℚ) / 10 ^ 9 + (q1.toRat - (nsec : ℚ) / 10 ^ 9) := by
      rw [← hsumexact]; ring
    rw [h1]
    have h2 : |(d : ℚ) / 10 ^ 9| = |(d : ℚ)| / 10 ^ 9 := by
      rw [abs_div, abs_of_pos (by norm_num : (0 : ℚ) < 10 ^ 9)]
    have := abs_add ((d : ℚ) / 10 ^ 9) (q1.toRat - (nsec : ℚ) / 10 ^ 9)
    rw [h2] at this
    linarith
  have hdabs : |(d : ℚ)| ≤ 2 ^ 63 := by
    have h1 : ((d.natAbs : Nat) : ℚ) ≤ 2 ^ 63 := by exact_mod_cast hd
    rw [Nat.cast_natAbs, Int.cast_abs] at h1
    exact h1
  have hsumlt : |(F64.ofInt sec).toRat + q1.toRat| < F64.hugeBound := by
    refine lt_of_le_of_lt hsumabs (lt_of_lt_of_le ?_ (two_pow_lt_huge 64 (by norm_num)).le)
    generalize F64.halfUnit = u at hu hu0 ⊢
    norm_num at hu hdabs ⊢
    linarith
  obtain ⟨haf, haerr⟩ := F64.add_spec _ _ hsf hqf hsumlt
  refine ⟨haf, ?_⟩
  generalize (F64.add (F64.ofInt sec) q1).toRat = r at haerr ⊢
  rw [hsv] at haerr hsumabs
  generalize F64.halfUnit = u at *
  have h3 : |r - (d : ℚ) / 10 ^ 9|
      ≤ |r - ((sec : ℚ) + q1.toRat)| + |(sec : ℚ) + q1.toRat - (d : ℚ) / 10 ^ 9| :=
    abs_sub_le _ _ _
  have h4 : (sec : ℚ) + q1.toRat - (d : ℚ) / 10 ^ 9 = q1.toRat - (nsec : ℚ) / 10 ^ 9 := by
    rw [← hsumexact]; ring
  rw [h4] at h3
  have hd0 : (0 : ℚ) ≤ |(d : ℚ)| := abs_nonneg _
  generalize |r - (d : ℚ) / 10 ^ 9| = lhs at h3 ⊢
  generalize |r - ((sec : ℚ) + q1.toRat)| = e1 at h3 haerr
  generalize |q1.toRat - (nsec : ℚ) / 10 ^ 9| = e2 at h3 hq1close
  generalize |(sec : ℚ) + q1.toRat| = a at haerr hsumabs
  generalize |(d : ℚ)| = D at *
  have h5 : a / 2 ^ 53 ≤ (D / 10 ^ 9 + (1 / 2 ^ 53 + u)) / 2 ^ 53 :=
    div_le_div_of_nonneg_right hsumabs (by norm_num)
  norm_num at hu h5 hq1close haerr h3 ⊢
  linarith

/-- The quotient `s / nano` stays within `0.8` of `s * 10^9` while
`|s| * 10^9 ≤ 2^52`. -/
theorem div_nano_close (s : F64) (hs : s.isFinite = true)
    (hr : |s.toRat| * 10 ^ 9 ≤ 2 ^ 52) :
    |(F64.div s nano).toRat - s.toRat * 10 ^ 9| ≤ 4 / 5 := by
  have hr62 : |s.toRat| * 10 ^ 9 ≤ 2 ^ 62 := le_trans hr (by norm_num)
  obtain ⟨-, herr⟩ := div_nano_spec s hs hr62
  have hu := half_unit_le
  generalize F64.halfUnit = u at herr hu
  generalize |(F64.div s nano).toRat - s.toRat * 10 ^ 9| = e at herr ⊢
  generalize |s.toRat| = a at *
  norm_num at hu hr herr ⊢
  linarith

theorem Ftos_exists_close (s : F64) (hs : s.isFinite = true)
    (hr : |s.toRat| * 10 ^ 9 ≤ 2 ^ 52) :
    ∃ t : Int, Ftos s = some t ∧ |t - truncQ (s.toRat * 10 ^ 9)| ≤ 1 := by
  have hr62 : |s.toRat| * 10 ^ 9 ≤ 2 ^ 62 := le_trans hr (by norm_num)
  refine ⟨_, Ftos_spec s hs hr62, truncQ_close _ _ ?_⟩
  exact lt_of_le_of_lt (div_nano_close s hs hr) (by norm_num)

theorem natAbs_le_of_abs_le (t : Int) (B : Nat) (h : |(t : ℚ)| ≤ B) : t.natAbs ≤ B := by
  have h1 : ((t.natAbs : Nat) : ℚ) ≤ B := by
    rw [Nat.cast_natAbs, Int.cast_abs]; exact h
  exact_mod_cast h1

theorem Ftos_Stof_close (d : Int) (hd : |d| ≤ 2 ^ 51) :
    ∃ t : Int, Ftos (Stof d) = some t ∧ |t - d| ≤ 1 := by
  have hdq : |(d : ℚ)| ≤ 2 ^ 51 := by
    have : ((|d| : Int) : ℚ) ≤ ((2 ^ 51 : Int) : ℚ) := by exact_mod_cast hd
    rw [Int.cast_abs] at this
    simpa using this
  have hdN : d.natAbs ≤ 2 ^ 63 := by
    apply natAbs_le_of_abs_le
    refine le_trans hdq ?_
    norm_num
  obtain ⟨hsf, hserr⟩ := Seconds_spec d hdN
  unfold Stof
  generalize time.Duration.Seconds d = s at hsf hserr ⊢
  have habs9 : |s.toRat * 10 ^ 9 - (d : ℚ)| ≤ (|(d : ℚ)| + 2 * 10 ^ 9) / 2 ^ 53 := by
    have h1 : s.toRat * 10 ^ 9 - (d : ℚ) = (s.toRat - (d : ℚ) / 10 ^ 9) * 10 ^ 9 := by
      field_simp
    rw [h1, abs_mul, abs_of_pos (by norm_num : (0 : ℚ) < 10 ^ 9)]
    have h2 := mul_le_mul_of_nonneg_right hserr (by norm_num : (0 : ℚ) ≤ 10 ^ 9)
    refine le_trans h2 (le_of_eq ?_)
    field_simp
    ring
  have hs9 : |s.toRat| * 10 ^ 9 ≤ 2 ^ 51 + 1 := by
    have h1 : |s.toRat| * 10 ^ 9 = |s.toRat * 10 ^ 9| := by
      rw [abs_mul, abs_of_pos (by norm_num : (0 : ℚ) < 10 ^ 9)]
    rw [h1]
    have h2 := abs_add (s.toRat * 10 ^ 9 - (d : ℚ)) (d : ℚ)
    rw [sub_add_cancel] at h2
    have hd0 : (0 : ℚ) ≤ |(d : ℚ)| := abs_nonneg _
    generalize |s.toRat * 10 ^ 9 - (d : ℚ)| = e at habs9 h2
    generalize |s.toRat * 10 ^ 9| = a at h2 ⊢
    generalize |(d : ℚ)| = D at *
    norm_num at habs9 hdq ⊢
    linarith
  have hr62 : |s.toRat| * 10 ^ 9 ≤ 2 ^ 62 := le_trans hs9 (by norm_num)
  obtain ⟨-, herr⟩ := div_nano_spec s hsf hr62
  refine ⟨_, Ftos_spec s hsf hr62, ?_⟩
  have hclose : |(F64.div s nano).toRat - ((d : Int) : ℚ)| < 1 := by
    have h3 := abs_sub_le (F64.div s nano).toRat (s.toRat * 10 ^ 9) (d : ℚ)
    have hu := half_unit_le
    have hd0 : (0 : ℚ) ≤ |(d : ℚ)| := abs_nonneg _
    generalize F64.halfUnit = u at herr hu
    generalize |(F64.div s nano).toRat - (d : ℚ)| = lhs at h3 ⊢
    generalize |(F64.div s nano).toRat - s.toRat * 10 ^ 9| = e1 at h3 herr
    generalize |s.toRat * 10 ^ 9 - (d : ℚ)| = e2 at h3 habs9
    generalize |s.toRat| = a at *
    generalize |(d : ℚ)| = D at *
    norm_num at hu habs9 hdq hs9 herr ⊢
    linarith
  have := truncQ_close _ _ hclose
  rwa [truncQ_intCast] at this

theorem Stof_Ftos_close (s : F64) (hs : s.isFinite = true)
    (hr : |s.toRat| * 10 ^ 9 ≤ 2 ^ 51) :
    ∃ t : Int, Ftos s = some t ∧ (Stof t).isFinite = true ∧
      |(Stof t).toRat - s.toRat| < 2 / 10 ^ 9 := by
  have hr62 : |s.toRat| * 10 ^ 9 ≤ 2 ^ 62 := le_trans hr (by norm_num)
  obtain ⟨-, herr⟩ := div_nano_spec s hs hr62
  refine ⟨_, Ftos_spec s hs hr62, ?_⟩
  have htr := truncQ_sub_lt (F64.div s nano).toRat
  have htabs := abs_truncQ_le (F64.div s nano).toRat
  have hu := half_unit_le
  have hrho : |(F64.div s nano).toRat| ≤ 2 ^ 51 + 1 := by
    have h1 := abs_add ((F64.div s nano).toRat - s.toRat * 10 ^ 9) (s.toRat * 10 ^ 9)
    rw [sub_add_cancel] at h1
    have h2 : |s.toRat * 10 ^ 9| = |s.toRat| * 10 ^ 9 := by
      rw [abs_mul, abs_of_pos (by norm_num : (0 : ℚ) < 10 ^ 9)]
    rw [h2] at h1
    have ha0 : (0 : ℚ) ≤ |s.toRat| := abs_nonneg _
    generalize F64.halfUnit = u at herr hu
    generalize |(F64.div s nano).toRat - s.toRat * 10 ^ 9| = e1 at h1 herr
    generalize |(F64.div s nano).toRat| = r at h1 ⊢
    generalize |s.toRat| = a at *
    norm_num at hu hr herr ⊢
    linarith
  generalize truncQ (F64.div s nano).toRat = t at htr htabs ⊢
  have htq : |(t : ℚ)| ≤ 2 ^ 51 + 1 := le_trans htabs hrho
  have htN : t.natAbs ≤ 2 ^ 63 := by
    apply natAbs_le_of_abs_le
    refine le_trans htq ?_
    norm_num
  obtain ⟨hsfin, hserr⟩ := Seconds_spec t htN
  unfold Stof
  refine ⟨hsfin, ?_⟩
  generalize (time.Duration.Seconds t).toRat = r at hserr ⊢
  have h1 : r - s.toRat = (r - (t : ℚ) / 10 ^ 9)
      + ((t : ℚ) - (F64.div s nano).toRat) / 10 ^ 9
      + ((F64.div s nano).toRat - s.toRat * 10 ^ 9) / 10 ^ 9 := by
    field_simp; ring
  have h2 := abs_add_three (r - (t : ℚ) / 10 ^ 9)
      (((t : ℚ) - (F64.div s nano).toRat) / 10 ^ 9)
      (((F64.div s nano).toRat - s.toRat * 10 ^ 9) / 10 ^ 9)
  rw [← h1, abs_div, abs_div, abs_of_pos (by norm_num : (0 : ℚ) < 10 ^ 9)] at h2
  have ha0 : (0 : ℚ) ≤ |s.toRat| := abs_nonneg _
  generalize F64.halfUnit = u at herr hu
  generalize |r - s.toRat| = lhs at h2 ⊢
  generalize |r - (t : ℚ) / 10 ^ 9| = e1 at h2 hserr
  generalize |(t : ℚ) - (F64.div s nano).toRat| = e2 at h2 htr
  generalize |(F64.div s nano).toRat - s.toRat * 10 ^ 9| = e3 at h2 herr
  generalize |(t : ℚ)| = T at *
  generalize |s.toRat| = a at *
  norm_num at hu hr herr hserr htq h2 ⊢
  linarith

/-! ## Helpers for concrete inputs -/

theorem abs_toRat_ofInt (i : Int) (h : i.natAbs < 2 ^ 53) :
    |(F64.ofInt i).toRat| = |(i : ℚ)| := by
  rw [(F64.ofInt_spec i h).2.2]

theorem floatTime_eq : FloatTime = 1 := by decide

/-! # The claims -/

/-! ## The own-unit accessors and the zero duration -/

/-- C10: each wrapper's own-unit accessor returns the stored number unchanged.
For every `float64` `x` other than NaN, `Second(x).Seconds() == x`,
`Hour(x).Hours() == x` and `Minute(x).Minutes() == x` hold under Go's `==`
(the results are the very same value), and for every `int64` `n`,
`Nanosecond(n).Nanoseconds()` is `n` and `Nanosecond(n).Duration()` is the
duration of exactly `n` nanoseconds. -/
theorem own_unit_accessor_identity (x : F64) (n : Int) (hx : x ≠ F64.nan)
    (hn : IsInt64 n) :
    (F64.eq (Second.Seconds x) x = true ∧ Second.Seconds x = x) ∧
    (F64.eq (Hour.Hours x) x = true ∧ Hour.Hours x = x) ∧
    (F64.eq (Minute.Minutes x) x = true ∧ Minute.Minutes x = x) ∧
    Nanosecond.Nanoseconds n = n ∧
    Nanosecond.Duration n = n ∧
    time.Duration.Nanoseconds (Nanosecond.Duration n) = n := by
  have hself : F64.eq x x = true := by
    cases x with
    | fin a k => simp [F64.eq]
    | inf a => simp [F64.eq]
    | nan => exact absurd rfl hx
  have hdur : Nanosecond.Duration n = n := by
    obtain ⟨h1, h2⟩ := hn
    unfold Nanosecond.Duration wrap64 time.Nanosecond
    rw [mul_one, Int.emod_eq_of_lt (by linarith) (by linarith)]
    ring
  refine ⟨⟨hself, rfl⟩, ⟨hself, rfl⟩, ⟨hself, rfl⟩, rfl, hdur, ?_⟩
  rw [hdur]; rfl

/-- Witness for C10 at `x = 0.2` and `n = 86400000000000` (24 hours). -/
theorem own_unit_accessor_identity_witness :
    F64.ofDecimal 2 1 ≠ F64.nan ∧ IsInt64 86400000000000 ∧
    F64.eq (Second.Seconds (F64.ofDecimal 2 1)) (F64.ofDecimal 2 1) = true ∧
    Nanosecond.Duration 86400000000000 = 86400000000000 :=
  ⟨by decide, by decide,
   (own_unit_accessor_identity (F64.ofDecimal 2 1) 86400000000000
      (by decide) (by decide)).1.1,
   (own_unit_accessor_identity (F64.ofDecimal 2 1) 86400000000000
      (by decide) (by decide)).2.2.2.2.1⟩

/-- C9: a zero value of every unit renders as the string `0` with no unit
suffix: `Hour(0).String()`, `Minute(0).String()`, `Second(0).String()` (for
either sign of the floating-point zero) and `Nanosecond(0).String()` are all
`"0"`. -/
theorem zero_renders_as_digit_zero (neg : Bool) :
    Hour.String (F64.fin neg 0) = some "0" ∧
    Minute.String (F64.fin neg 0) = some "0" ∧
    Second.String (F64.fin neg 0) = some "0" ∧
    Nanosecond.String 0 = "0" := by
  cases neg <;> decide

/-! ## `Duration()` of the float wrappers -/

/-- C1 (the code at the failing inputs): `Second(0.2).Duration()` is the zero
duration although `Ftos(0.2)` is 200 milliseconds, and
`Second(86400).Duration()` is 86400 hours (311040000000000000 ns), not the 24
hours (86400000000000 ns) that 86400 seconds are. -/
theorem second_duration_scales_by_hour :
    F64.WF (F64.ofDecimal 2 1) ∧ F64.WF (F64.ofInt 86400) ∧
    Second.Duration (F64.ofDecimal 2 1) = some 0 ∧
    Ftos (F64.ofDecimal 2 1) = some 200000000 ∧
    Second.Duration (F64.ofInt 86400) = some (86400 * time.Hour) ∧
    Second.Duration (F64.ofInt 86400) ≠ some (24 * time.Hour) ∧
    Ftos (F64.ofInt 86400) = some (24 * time.Hour) := by
  decide

/-- C2 (the code at the failing inputs): `Hour(1.5).Duration()` is one hour
(3600000000000 ns), not 90 minutes (5400000000000 ns), and
`Minute(0.5).Duration()` is the zero duration, not 30 seconds: the fraction of
the hour or minute is discarded before the multiplication.  The sibling
accessors keep it: `Hour(1.5).Nanoseconds()` is 90 minutes and
`Minute(0.5).Nanoseconds()` is 30 seconds less one nanosecond. -/
theorem hour_minute_duration_drop_fraction :
    F64.WF (F64.ofDecimal 15 1) ∧ F64.WF (F64.ofDecimal 5 1) ∧
    Hour.Duration (F64.ofDecimal 15 1) = some (1 * time.Hour) ∧
    Hour.Duration (F64.ofDecimal 15 1) ≠ some (90 * time.Minute) ∧
    Hour.Nanoseconds (F64.ofDecimal 15 1) = some (90 * time.Minute) ∧
    Minute.Duration (F64.ofDecimal 5 1) = some 0 ∧
    Minute.Duration (F64.ofDecimal 5 1) ≠ some (30 * time.Second) ∧
    Minute.Nanoseconds (F64.ofDecimal 5 1) = some (30 * time.Second - 1) := by
  decide

/-- C5 (the code at the failing input `d` = 24 hours): the hour and minute
legs `Hour(d.Hours()).Duration()` and `Minute(d.Minutes()).Duration()` are 24
hours, but the second leg `Second(d.Seconds()).Duration()` is 86400 hours, so
the three are not equal to within one nanosecond. -/
theorem cross_unit_second_leg_off :
    Hour.Duration (time.Duration.Hours (24 * time.Hour)) = some (24 * time.Hour) ∧
    Minute.Duration (time.Duration.Minutes (24 * time.Hour)) = some (24 * time.Hour) ∧
    Second.Duration (time.Duration.Seconds (24 * time.Hour)) = some (86400 * time.Hour) ∧
    86400 * time.Hour - 24 * time.Hour > FloatTime := by
  decide

/-! ## The free conversion functions -/

/-- C6, counterexample: `Ftos(1.0)` is 999999999 ns, one nanosecond short of
the one second that `1.0 * 1e9` truncates to; and `Ftos(9e9)` is
8999999999999998976 ns, 1024 ns short of `9e9 * 1e9`. -/
theorem Ftos_not_exact_truncation :
    F64.WF (F64.ofInt 1) ∧ F64.WF (F64.ofInt 9000000000) ∧
    Ftos (F64.ofInt 1) = some 999999999 ∧
    truncQ ((F64.ofInt 1).toRat * 10 ^ 9) = 1000000000 ∧
    Ftos (F64.ofInt 9000000000) = some 8999999999999998976 ∧
    truncQ ((F64.ofInt 9000000000).toRat * 10 ^ 9) = 9000000000000000000 := by
  refine ⟨by decide, by decide, by decide, ?_, by decide, ?_⟩
  · rw [(F64.ofInt_spec 1 (by decide)).2.2,
      show ((1 : Int) : ℚ) * 10 ^ 9 = ((1000000000 : Int) : ℚ) by norm_num, truncQ_intCast]
  · rw [(F64.ofInt_spec 9000000000 (by decide)).2.2,
      show ((9000000000 : Int) : ℚ) * 10 ^ 9 = ((9000000000000000000 : Int) : ℚ) by norm_num,
      truncQ_intCast]

/-- C6, amended: for every finite `float64` `s` with `|s * 1e9| ≤ 2^52`,
`Ftos(s)` is within one nanosecond of `s * 1e9` truncated toward zero; in
particular `Ftos(0.1)` is 100 milliseconds, `Ftos(1.0)` is one second less one
nanosecond, `Ftos(10.0)` is 10 seconds and `Ftos(60.0)` is 60 seconds. -/
theorem Ftos_within_one_nanosecond (s : F64) (hs : s.isFinite = true)
    (hr : |s.toRat| * 10 ^ 9 ≤ 2 ^ 52) :
    (∃ t : Int, Ftos s = some t ∧ |t - truncQ (s.toRat * 10 ^ 9)| ≤ 1) ∧
    Ftos (F64.ofDecimal 1 1) = some (100 * time.Millisecond) ∧
    Ftos (F64.ofInt 1) = some (1 * time.Second - 1) ∧
    Ftos (F64.ofInt 10) = some (10 * time.Second) ∧
    Ftos (F64.ofInt 60) = some (60 * time.Second) :=
  ⟨Ftos_exists_close s hs hr, by decide, by decide, by decide, by decide⟩

/-- Witness for C6 at `s = 60.0`. -/
theorem Ftos_within_one_nanosecond_witness :
    (F64.ofInt 60).isFinite = true ∧ |(F64.ofInt 60).toRat| * 10 ^ 9 ≤ 2 ^ 52 ∧
    ∃ t : Int, Ftos (F64.ofInt 60) = some t ∧
      |t - truncQ ((F64.ofInt 60).toRat * 10 ^ 9)| ≤ 1 :=
  ⟨by decide, by rw [abs_toRat_ofInt 60 (by decide)]; norm_num,
   (Ftos_within_one_nanosecond (F64.ofInt 60) (by decide)
      (by rw [abs_toRat_ofInt 60 (by decide)]; norm_num)).1⟩

/-- C3, counterexample: for `d` = 9000000000000000000 ns, `Stof(d)` is `9e9`
and `Ftos(Stof(d))` is 8999999999999998976 ns, 1024 ns away from `d`. -/
theorem Ftos_Stof_off_by_1024 :
    IsInt64 9000000000000000000 ∧
    Stof 9000000000000000000 = F64.ofInt 9000000000 ∧
    Ftos (Stof 9000000000000000000) = some 8999999999999998976 ∧
    ¬ (|(8999999999999998976 : Int) - 9000000000000000000| ≤ FloatTime) := by
  decide

/-- C3, amended: for every `time.Duration` `d` with `|d| ≤ 2^51` nanoseconds
(about 26 days), `Ftos(Stof(d))` differs from `d` by at most one nanosecond
(`FloatTime`). -/
theorem Ftos_Stof_within_FloatTime (d : Int) (hd : |d| ≤ 2 ^ 51) :
    ∃ t : Int, Ftos (Stof d) = some t ∧ |t - d| ≤ FloatTime := by
  rw [floatTime_eq]
  exact Ftos_Stof_close d hd

/-- Witness for C3 at `d` = 24 hours. -/
theorem Ftos_Stof_within_FloatTime_witness :
    |(24 * time.Hour : Int)| ≤ 2 ^ 51 ∧
    ∃ t : Int, Ftos (Stof (24 * time.Hour)) = some t ∧ |t - 24 * time.Hour| ≤ FloatTime :=
  ⟨by decide, Ftos_Stof_within_FloatTime (24 * time.Hour) (by decide)⟩

/-- C4, counterexample: `Ftos(2.0)` is 1999999999 ns and `Stof` of that is the
`float64` 1.999999999 = 562949953139837 / 2^48, which is 281475 / 2^48 (more
than `1e-9`) below `2.0`; `Ftos(9e9)` is 8999999999999998976 ns and `Stof` of
that is `9e9 - 2^-19`, about `1.9e-6` below `9e9`. -/
theorem Stof_Ftos_beyond_tolerance :
    F64.WF (F64.ofInt 2) ∧ F64.WF (F64.ofInt 9000000000) ∧
    Ftos (F64.ofInt 2) = some 1999999999 ∧
    (F64.ofInt 2).toRat - (Stof 1999999999).toRat = 281475 / 2 ^ 48 ∧
    (1 : ℚ) / 10 ^ 9 < 281475 / 2 ^ 48 ∧
    Ftos (F64.ofInt 9000000000) = some 8999999999999998976 ∧
    (F64.ofInt 9000000000).toRat - (Stof 8999999999999998976).toRat = 1 / 2 ^ 19 ∧
    (1 : ℚ) / 10 ^ 9 < 1 / 2 ^ 19 := by
  have h1 : Stof 1999999999 = F64.fin false (562949953139837 * 2 ^ 1026) := by decide
  have h2 : Stof 8999999999999998976 = F64.fin false (4718591999999999 * 2 ^ 1055) := by
    decide
  have e1 : (2 : ℚ) ^ 1074 = 2 ^ 1026 * 2 ^ 48 := pow_add 2 1026 48
  have e2 : (2 : ℚ) ^ 1074 = 2 ^ 1055 * 2 ^ 19 := pow_add 2 1055 19
  have p1 : (0 : ℚ) < 2 ^ 1026 := pow_pos two_pos 1026
  have p2 : (0 : ℚ) < 2 ^ 1055 := pow_pos two_pos 1055
  refine ⟨by decide, by decide, by decide, ?_, by norm_num, by decide, ?_, by norm_num⟩
  · rw [(F64.ofInt_spec 2 (by decide)).2.2, h1, F64.toRat_fin, Nat.cast_mul, Nat.cast_pow,
      Nat.cast_ofNat, e1]
    generalize (2 : ℚ) ^ 1026 = A at p1
    simp only [F64.sg, Bool.false_eq_true, if_false]
    field_simp
    ring
  · rw [(F64.ofInt_spec 9000000000 (by decide)).2.2, h2, F64.toRat_fin, Nat.cast_mul,
      Nat.cast_pow, Nat.cast_ofNat, e2]
    generalize (2 : ℚ) ^ 1055 = A at p2
    simp only [F64.sg, Bool.false_eq_true, if_false]
    field_simp
    ring

/-- C4, amended: for every finite `float64` `s` with `|s * 1e9| ≤ 2^51`
(about 26 days), `Ftos(s)` is in range and `Stof(Ftos(s))` is a finite
`float64` that differs from `s` by less than `2e-9`. -/
theorem Stof_Ftos_within_two_nanoseconds (s : F64) (hs : s.isFinite = true)
    (hr : |s.toRat| * 10 ^ 9 ≤ 2 ^ 51) :
    ∃ t : Int, Ftos s = some t ∧ (Stof t).isFinite = true ∧
      |(Stof t).toRat - s.toRat| < 2 / 10 ^ 9 :=
  Stof_Ftos_close s hs hr

/-- Witness for C4 at `s = 2.0`. -/
theorem Stof_Ftos_within_two_nanoseconds_witness :
    (F64.ofInt 2).isFinite = true ∧ |(F64.ofInt 2).toRat| * 10 ^ 9 ≤ 2 ^ 51 ∧
    ∃ t : Int, Ftos (F64.ofInt 2) = some t ∧ (Stof t).isFinite = true ∧
      |(Stof t).toRat - (F64.ofInt 2).toRat| < 2 / 10 ^ 9 :=
  ⟨by decide, by rw [abs_toRat_ofInt 2 (by decide)]; norm_num,
   Stof_Ftos_within_two_nanoseconds (F64.ofInt 2) (by decide)
      (by rw [abs_toRat_ofInt 2 (by decide)]; norm_num)⟩

/-! ## Whole minutes and whole hours -/

/-- C7 (the code at the failing inputs): `Minute(1).Nanoseconds()` is
59999999999, one nanosecond short of the `6e10` that the claim states and that
the sibling `Minute(1).Duration()` returns, and `Minute(1).Seconds()` is the
`float64` 59.999999999, not the 60 that `Minute(1).Duration().Seconds()` is;
`Minute(260000).Nanoseconds()` is 15599999999999998, two nanoseconds short of
`260000 * 6e10`, which `Minute(260000).Duration()` returns.  At `m = 60` the
accessors are exact: `Nanoseconds() == 3.6e12`, `Seconds() == 3600.0`,
`Hours() == 1.0`. -/
theorem minute_accessors_not_exact :
    F64.WF (F64.ofInt 1) ∧ F64.WF (F64.ofInt 260000) ∧
    Minute.Nanoseconds (F64.ofInt 1) = some 59999999999 ∧
    Minute.Duration (F64.ofInt 1) = some 60000000000 ∧
    Minute.Seconds (F64.ofInt 1) = some (time.Duration.Seconds 59999999999) ∧
    F64.eq (time.Duration.Seconds 59999999999) (F64.ofInt 60) = false ∧
    (Minute.Duration (F64.ofInt 1)).map time.Duration.Seconds = some (F64.ofInt 60) ∧
    Minute.Nanoseconds (F64.ofInt 260000) = some 15599999999999998 ∧
    Minute.Duration (F64.ofInt 260000) = some (260000 * 60000000000) ∧
    (260000 : Int) * 60000000000 - 15599999999999998 = 2 ∧
    Minute.Nanoseconds (F64.ofInt 60) = some 3600000000000 ∧
    Minute.Seconds (F64.ofInt 60) = some (F64.ofInt 3600) ∧
    Minute.Hours (F64.ofInt 60) = some (F64.ofInt 1) := by
  decide

/-- C8 (the code at the failing inputs): `Hour(1).String()` is
`"59m59.999999999s"`, the rendering of `Hour(1).Nanoseconds()` =
3599999999999 ns, while the claim states `"1h0m0s"`, which the siblings
`Hour(1).Duration().String()` and `Nanosecond(3600000000000).String()` give;
`Hour(4000).String()` is `"3999h59m59.999999998s"` while
`Nanosecond(4000 * 3600000000000).String()` is `"4000h0m0s"`.  At `h = 24`
both `Hour(24).String()` and `Nanosecond(86400000000000).String()` are
`"24h0m0s"`. -/
theorem hour_string_not_whole :
    F64.WF (F64.ofInt 1) ∧ F64.WF (F64.ofInt 4000) ∧
    Hour.Nanoseconds (F64.ofInt 1) = some 3599999999999 ∧
    Hour.String (F64.ofInt 1) = some "59m59.999999999s" ∧
    (Hour.Duration (F64.ofInt 1)).map time.Duration.String = some "1h0m0s" ∧
    Nanosecond.String 3600000000000 = "1h0m0s" ∧
    Hour.String (F64.ofInt 4000) = some "3999h59m59.999999998s" ∧
    Nanosecond.String (4000 * 3600000000000) = "4000h0m0s" ∧
    Hour.String (F64.ofInt 24) = some "24h0m0s" ∧
    Nanosecond.String 86400000000000 = "24h0m0s" := by
  decide

end Gtime
